import Mathlib

/-!
Shallow embedding of `src/challenge.mjs`, an in-memory event broker with
keyed topics, per-group consumption tracking and a long-poll wait/notify
protocol.

Modelling conventions:
* JS values passed as `data` are modelled by `JsValue`; JS string keys are
  Lean `String`s, and a missing/`undefined` key is modelled by the empty
  string (both are falsy under `!key`).
* Each JS `Map` is an association list with distinct keys (`mapGet`,
  `mapSet`, `mapDelete` mirror `get`/`set`/`delete`); a JS `Set` of event
  ids is a duplicate-free `List String` grown by `addIds` (mirroring
  `Set.add`).
* Wall-clock times (`Date.now()`) are `Nat` milliseconds supplied
  explicitly; the random id suffix is an explicit argument.
* The asynchronous structure of `blockingGet` is decomposed into its
  atomic synchronous blocks: `blockingGetPhase1` (argument validation,
  CHECK1 and either return-with-mark or waiter registration) and
  `blockingGetCheck` (a CHECK+markConsumed block, used for CHECK1 and
  CHECK2 alike).  Promise resolution is observed through `resolveLog`,
  the list of `resolve()` invocations.
* Whole executions are traces of atomic operations (`Op`), interpreted by
  `applyOp`/`run`.
-/

namespace EventSyncer

/-- Atomic JS values, used as object field values. -/
inductive JsAtom where
  | anull
  | aundef
  | abool (b : Bool)
  | anum (n : Int)
  | astr (s : String)
deriving DecidableEq

/-- JS values as far as the broker observes them: the broker only tests
truthiness of `data` (`data || {}`) and otherwise stores it opaquely, so
object payloads are modelled with one level of fields (the distinguished
constant `{}` is `vobj []`, and truthiness is exact). -/
inductive JsValue where
  | vnull
  | vundef
  | vbool (b : Bool)
  | vnum (n : Int)
  | vstr (s : String)
  | vobj (fields : List (String × JsAtom))
deriving DecidableEq

/-- JS truthiness test `!v` (negated): `null`, `undefined`, `false`, `0`
and `""` are falsy; every object (including `{}`) is truthy. -/
def jsFalsy : JsValue → Bool
  | .vnull => true
  | .vundef => true
  | .vbool b => !b
  | .vnum n => n == 0
  | .vstr s => s == ""
  | .vobj _ => false

/-- An event record `{ id, data, timestamp }` from `push`. -/
structure Event where
  id : String
  data : JsValue
  timestamp : Nat
deriving DecidableEq

/-- `EVENT_EXPIRY_MS = 2 * 60 * 1000` (2 minutes). -/
def EVENT_EXPIRY_MS : Nat := 2 * 60 * 1000

/-- `BLOCKING_TIMEOUT_MS = 30 * 1000` (30 seconds). -/
def BLOCKING_TIMEOUT_MS : Nat := 30 * 1000

/-- `Map.prototype.get`, on an association list. -/
def mapGet {α : Type} (m : List (String × α)) (k : String) : Option α :=
  match m with
  | [] => none
  | (k', v) :: rest => if k' = k then some v else mapGet rest k

/-- `Map.prototype.set`: replace in place, or append when absent. -/
def mapSet {α : Type} (m : List (String × α)) (k : String) (v : α) :
    List (String × α) :=
  match m with
  | [] => [(k, v)]
  | (k', v') :: rest =>
    if k' = k then (k, v) :: rest else (k', v') :: mapSet rest k v

/-- `Map.prototype.delete`. -/
def mapDelete {α : Type} (m : List (String × α)) (k : String) :
    List (String × α) :=
  m.filter (fun p => !decide (p.1 = k))

/-- The three shared stores of `challenge.mjs`, plus `resolveLog`, the
observation log of `resolve()` invocations (each entry is the numeric id
of the waiter whose promise-resolve was called). -/
structure BrokerState where
  events : List (String × List Event)
  groupConsumption : List (String × List String)
  waiters : List (String × List Nat)
  resolveLog : List Nat
deriving DecidableEq

/-- The state at module load: all three maps empty. -/
def initState : BrokerState := ⟨[], [], [], []⟩

/-- Events currently stored under `key` (`events.get(key) || []`). -/
def eventsOf (s : BrokerState) (key : String) : List Event :=
  (mapGet s.events key).getD []

/-- Consumed ids for a raw group key
(`groupConsumption.get(groupKey) || new Set()`). -/
def consumedOf (s : BrokerState) (groupKey : String) : List String :=
  (mapGet s.groupConsumption groupKey).getD []

/-- Waiters currently registered for `key`. -/
def waitersOf (s : BrokerState) (key : String) : List Nat :=
  (mapGet s.waiters key).getD []

/-- The consumption-record key `` `${key}:${groupId}` ``. -/
def groupKeyOf (key groupId : String) : String :=
  key ++ ":" ++ groupId

/-- The event id `` `${key}-${Date.now()}-${rand}` `` built in `push`. -/
def eventId (key : String) (t : Nat) (rand : String) : String :=
  key ++ "-" ++ toString t ++ "-" ++ rand

/-- `push(key, data)` at time `t` with random suffix `rand`: throws on a
falsy key; otherwise appends the new event and wakes (resolves) and
deletes every waiter registered for `key`. -/
def push (s : BrokerState) (key : String) (data : JsValue) (t : Nat)
    (rand : String) : Except String BrokerState :=
  if key = "" then .error "Missing key"
  else
    let newEvent : Event :=
      ⟨eventId key t rand, if jsFalsy data then .vobj [] else data, t⟩
    let events' := mapSet s.events key (eventsOf s key ++ [newEvent])
    match mapGet s.waiters key with
    | some ws =>
      .ok { s with
              events := events'
              waiters := mapDelete s.waiters key
              resolveLog := s.resolveLog ++ ws }
    | none => .ok { s with events := events' }

/-- The inner `getUnconsumed` closure of `blockingGet`. -/
def getUnconsumed (s : BrokerState) (key groupId : String) : List Event :=
  let allEvents := eventsOf s key
  let consumed := consumedOf s (groupKeyOf key groupId)
  allEvents.filter (fun e => !decide (e.id ∈ consumed))

/-- `Set`-style accumulation: `for (const e of eventsArr) consumed.add(e.id)`
(a JS `Set` ignores ids already present). -/
def addIds (acc : List String) (eventsArr : List Event) : List String :=
  eventsArr.foldl (fun acc e => if e.id ∈ acc then acc else acc ++ [e.id])
    acc

/-- `markConsumed(groupKey, eventsArr)`: adds each event id to the
group's consumed set (creating it if absent). -/
def markConsumed (s : BrokerState) (groupKey : String)
    (eventsArr : List Event) : BrokerState :=
  { s with
      groupConsumption :=
        mapSet s.groupConsumption groupKey
          (addIds (consumedOf s groupKey) eventsArr) }

/-- One atomic CHECK+mark block of `blockingGet` (lines 69-73 and 82-86):
validates the arguments as the enclosing `blockingGet` does, computes the
unconsumed events, and when non-empty marks them consumed.  Returns the
value `blockingGet` would return from this block together with the
post-state. -/
def blockingGetCheck (s : BrokerState) (key groupId : String) :
    List Event × BrokerState :=
  if key = "" ∨ groupId = "" then ([], s)
  else
    let u := getUnconsumed s key groupId
    if u.length > 0 then (u, markConsumed s (groupKeyOf key groupId) u)
    else ([], s)

/-- Registration of a waiter `wid` for `key` (lines 76-79): appends the
resolve callback to `waiters.get(key)`, creating the entry if absent. -/
def registerWaiter (s : BrokerState) (key : String) (wid : Nat) :
    BrokerState :=
  { s with waiters := mapSet s.waiters key (waitersOf s key ++ [wid]) }

/-- The synchronous first phase of `blockingGet(key, groupId)`: either an
immediate return (malformed arguments, or CHECK1 non-empty) or a
suspension after registering waiter `wid`. -/
inductive GetPhase1 where
  | ret (result : List Event) (s' : BrokerState)
  | wait (s' : BrokerState)
deriving DecidableEq

/-- `blockingGet` up to its first suspension point: returns `[]` at once
on a falsy `key` or `groupId`; returns CHECK1's events (marked consumed)
when non-empty; otherwise registers a waiter and suspends. -/
def blockingGetPhase1 (s : BrokerState) (key groupId : String)
    (wid : Nat) : GetPhase1 :=
  if key = "" ∨ groupId = "" then .ret [] s
  else
    let u := getUnconsumed s key groupId
    if u.length > 0 then
      .ret u (markConsumed s (groupKeyOf key groupId) u)
    else .wait (registerWaiter s key wid)

/-- The retention sweep body (lines 14-24): for every key keep the events
younger than `EVENT_EXPIRY_MS`, deleting the key when none survives. -/
def pruneExpired (now : Nat) (m : List (String × List Event)) :
    List (String × List Event) :=
  match m with
  | [] => []
  | (k, evts) :: rest =>
    let valid := evts.filter (fun e => decide (now - e.timestamp < EVENT_EXPIRY_MS))
    if valid.length > 0 then (k, valid) :: pruneExpired now rest
    else pruneExpired now rest

/-- Atomic operations of an execution trace.  `check` is a CHECK+mark
block of some `blockingGet key groupId`; `register` is its waiter
registration; `timeout` is the firing of a waiter's 30 s `setTimeout`
callback (which calls `resolve` but touches no map); `sweep` is one run
of the cleanup interval. -/
inductive Op where
  | push (key : String) (data : JsValue) (t : Nat) (rand : String)
  | check (key groupId : String)
  | register (key : String) (wid : Nat)
  | timeout (wid : Nat)
  | sweep (now : Nat)
deriving DecidableEq

/-- Interpret one atomic operation.  A throwing `push` leaves the state
unchanged (the exception propagates before any mutation). -/
def applyOp (s : BrokerState) : Op → BrokerState
  | .push key data t rand =>
    match push s key data t rand with
    | .ok s' => s'
    | .error _ => s
  | .check key groupId => (blockingGetCheck s key groupId).2
  | .register key wid => registerWaiter s key wid
  | .timeout wid => { s with resolveLog := s.resolveLog ++ [wid] }
  | .sweep now => { s with events := pruneExpired now s.events }

/-- Run a trace from the initial (module-load) state. -/
def run (ops : List Op) : BrokerState :=
  ops.foldl applyOp initState

/-! ### Association-list map lemmas -/

theorem mapGet_mapSet_self {α : Type} (m : List (String × α)) (k : String)
    (v : α) : mapGet (mapSet m k v) k = some v := by
  induction m with
  | nil => simp [mapGet, mapSet]
  | cons p rest ih =>
    obtain ⟨k', v'⟩ := p
    by_cases h : k' = k
    · subst h; simp [mapGet, mapSet]
    · simp [mapGet, mapSet, h, ih]

theorem mapGet_mapSet_ne {α : Type} (m : List (String × α)) (k k' : String)
    (v : α) (h : k' ≠ k) : mapGet (mapSet m k v) k' = mapGet m k' := by
  induction m with
  | nil => simp [mapGet, mapSet, Ne.symm h]
  | cons p rest ih =>
    obtain ⟨k'', v''⟩ := p
    by_cases hk : k'' = k
    · subst hk
      simp [mapGet, mapSet, Ne.symm h]
    · by_cases hk' : k'' = k'
      · subst hk'; simp [mapGet, mapSet, hk]
      · simp [mapGet, mapSet, hk, hk', ih]

theorem mapGet_mapDelete_self {α : Type} (m : List (String × α))
    (k : String) : mapGet (mapDelete m k) k = none := by
  induction m with
  | nil => simp [mapGet, mapDelete]
  | cons p rest ih =>
    obtain ⟨k', v'⟩ := p
    by_cases h : k' = k
    · subst h; simpa [mapDelete, List.filter_cons] using ih
    · simpa [mapDelete, List.filter_cons, h, mapGet] using ih

/-! ### `addIds` (JS `Set.add` fold) lemmas -/

theorem addIds_cons (acc : List String) (e : Event) (rest : List Event) :
    addIds acc (e :: rest) =
      addIds (if e.id ∈ acc then acc else acc ++ [e.id]) rest := by
  simp [addIds]

theorem mem_addIds_of_mem_left (acc : List String) (eventsArr : List Event)
    (x : String) (h : x ∈ acc) : x ∈ addIds acc eventsArr := by
  induction eventsArr generalizing acc with
  | nil => simpa [addIds] using h
  | cons e rest ih =>
    rw [addIds_cons]
    by_cases he : e.id ∈ acc
    · simpa [he] using ih acc h
    · simp only [he, if_false]
      exact ih (acc ++ [e.id]) (List.mem_append_left _ h)

theorem mem_addIds_of_mem (acc : List String) (eventsArr : List Event)
    (e : Event) (h : e ∈ eventsArr) : e.id ∈ addIds acc eventsArr := by
  induction eventsArr generalizing acc with
  | nil => cases h
  | cons e' rest ih =>
    rw [addIds_cons]
    rcases List.mem_cons.mp h with h | h
    · subst h
      apply mem_addIds_of_mem_left
      by_cases he : e.id ∈ acc
      · simp [he]
      · simp [he]
    · exact ih _ h

/-! ### Effect of each operation on the consumption tracker -/

theorem push_groupConsumption (s : BrokerState) (key : String)
    (data : JsValue) (t : Nat) (rand : String) (s' : BrokerState)
    (h : push s key data t rand = .ok s') :
    s'.groupConsumption = s.groupConsumption := by
  unfold push at h
  split at h
  · cases h
  · cases hw : mapGet s.waiters key with
    | some ws => simp only [hw] at h; cases h; rfl
    | none => simp only [hw] at h; cases h; rfl

theorem consumedOf_markConsumed_self (s : BrokerState) (gk : String)
    (eventsArr : List Event) :
    consumedOf (markConsumed s gk eventsArr) gk =
      addIds (consumedOf s gk) eventsArr := by
  simp [consumedOf, markConsumed, mapGet_mapSet_self]

theorem consumedOf_markConsumed_ne (s : BrokerState) (gk gk' : String)
    (eventsArr : List Event) (h : gk' ≠ gk) :
    consumedOf (markConsumed s gk eventsArr) gk' = consumedOf s gk' := by
  simp [consumedOf, markConsumed, mapGet_mapSet_ne _ _ _ _ h]

theorem consumedOf_applyOp_mono (s : BrokerState) (op : Op) (gk x : String)
    (h : x ∈ consumedOf s gk) : x ∈ consumedOf (applyOp s op) gk := by
  cases op with
  | push key data t rand =>
    simp only [applyOp]
    cases hp : push s key data t rand with
    | ok s' =>
      have := push_groupConsumption s key data t rand s' hp
      simpa [consumedOf, this] using h
    | error e => exact h
  | check key groupId =>
    simp only [applyOp, blockingGetCheck]
    split
    · exact h
    · split
      · by_cases hgk : gk = groupKeyOf key groupId
        · subst hgk
          rw [consumedOf_markConsumed_self]
          exact mem_addIds_of_mem_left _ _ _ h
        · rwa [consumedOf_markConsumed_ne _ _ _ _ hgk]
      · exact h
  | register key wid => exact h
  | timeout wid => exact h
  | sweep now => exact h

theorem consumedOf_foldl_mono (ops : List Op) (s : BrokerState)
    (gk x : String) (h : x ∈ consumedOf s gk) :
    x ∈ consumedOf (List.foldl applyOp s ops) gk := by
  induction ops generalizing s with
  | nil => simpa using h
  | cons op rest ih =>
    rw [List.foldl_cons]
    exact ih _ (consumedOf_applyOp_mono s op gk x h)

/-! ### CHECK+mark block lemmas -/

theorem check_marks (s : BrokerState) (key groupId x : String)
    (h : x ∈ (blockingGetCheck s key groupId).1.map Event.id) :
    x ∈ consumedOf (blockingGetCheck s key groupId).2
        (groupKeyOf key groupId) := by
  by_cases hv : key = "" ∨ groupId = ""
  · simp [blockingGetCheck, hv] at h
  · by_cases hl : (getUnconsumed s key groupId).length > 0
    · simp only [blockingGetCheck, hv, if_false, hl, if_true] at h ⊢
      obtain ⟨e, he, rfl⟩ := List.mem_map.mp h
      rw [consumedOf_markConsumed_self]
      exact mem_addIds_of_mem _ _ _ he
    · simp [blockingGetCheck, hv, hl] at h

theorem check_filters (s : BrokerState) (key groupId x : String)
    (h : x ∈ consumedOf s (groupKeyOf key groupId)) :
    x ∉ (blockingGetCheck s key groupId).1.map Event.id := by
  intro hx
  by_cases hv : key = "" ∨ groupId = ""
  · simp [blockingGetCheck, hv] at hx
  · by_cases hl : (getUnconsumed s key groupId).length > 0
    · simp only [blockingGetCheck, hv, if_false, hl, if_true] at hx
      obtain ⟨e, he, rfl⟩ := List.mem_map.mp hx
      have := (List.mem_filter.mp he).2
      simp only [Bool.not_eq_true', decide_eq_false_iff_not] at this
      exact this h
    · simp [blockingGetCheck, hv, hl] at hx

/-! ### Claim theorems -/

/-- C1: for every key and groupId, across any sequence of broker
operations, no event id returned by an earlier `blockingGet(key, groupId)`
CHECK block is ever contained in the result of a later
`blockingGet(key, groupId)` CHECK block for the same group: every returned
event is marked consumed, the consumed set only grows, and `getUnconsumed`
filters out already-consumed ids. -/
theorem no_duplicate_delivery (pre post : List Op) (key groupId x : String)
    (h : x ∈ (blockingGetCheck (run pre) key groupId).1.map Event.id) :
    x ∉ (blockingGetCheck (run (pre ++ Op.check key groupId :: post))
        key groupId).1.map Event.id := by
  have h1 : x ∈ consumedOf (applyOp (run pre) (Op.check key groupId))
      (groupKeyOf key groupId) :=
    check_marks _ _ _ _ h
  have h2 : run (pre ++ Op.check key groupId :: post) =
      List.foldl applyOp (applyOp (run pre) (Op.check key groupId)) post := by
    simp [run, List.foldl_append]
  rw [h2]
  exact check_filters _ _ _ _ (consumedOf_foldl_mono post _ _ _ h1)

/-- Witness for C1 at a concrete trace: a push of `"k"` at time 0 is
returned by the first check for group `"g"` and excluded from the next. -/
theorem no_duplicate_delivery_witness :
    "k-0-r" ∈ ((blockingGetCheck (run [Op.push "k" JsValue.vnull 0 "r"])
        "k" "g").1.map Event.id) ∧
    "k-0-r" ∉ ((blockingGetCheck
        (run ([Op.push "k" JsValue.vnull 0 "r"] ++ Op.check "k" "g" :: []))
        "k" "g").1.map Event.id) :=
  ⟨by decide,
   no_duplicate_delivery [Op.push "k" JsValue.vnull 0 "r"] [] "k" "g"
     "k-0-r" (by decide)⟩

/-- C4: `push` with an empty (or missing, modelled as empty) key fails
synchronously with the `Missing key` error before any mutation: as an
interpreted trace operation it leaves the state — hence all three shared
stores — exactly as it was. -/
theorem push_empty_key_rejected (s : BrokerState) (data : JsValue) (t : Nat)
    (rand : String) :
    push s "" data t rand = Except.error "Missing key" ∧
    applyOp s (Op.push "" data t rand) = s :=
  ⟨rfl, rfl⟩

/-- C7: `blockingGet` with an empty (or missing, modelled as empty) key
or groupId returns `[]` immediately, registers no waiter and leaves the
state untouched. -/
theorem blockingGet_malformed_noop (s : BrokerState) (key groupId : String)
    (wid : Nat) (h : key = "" ∨ groupId = "") :
    blockingGetPhase1 s key groupId wid = .ret [] s := by
  simp [blockingGetPhase1, h]

/-- Witness for C7: `blockingGet("k", "")` on a non-trivial state. -/
theorem blockingGet_malformed_noop_witness :
    blockingGetPhase1 (run [Op.push "k" JsValue.vnull 0 "r"]) "k" "" 5 =
      .ret [] (run [Op.push "k" JsValue.vnull 0 "r"]) :=
  blockingGet_malformed_noop (run [Op.push "k" JsValue.vnull 0 "r"]) "k" "" 5
    (Or.inr rfl)

/-- C9: the consumption-record key `key + ":" + groupId` is not injective
in the pair: `("a:b", "c")` and `("a", "b:c")` share the groupKey
`"a:b:c"`, so after the first pair consumes an event id, the same id is
filtered out for the second pair even though that pair never received it
— here the event stored under key `"a"` is still in the store yet
`blockingGetCheck` for `("a", "b:c")` returns nothing. -/
theorem groupKey_collision :
    groupKeyOf "a:b" "c" = groupKeyOf "a" "b:c" ∧
    (("a:b", "c") : String × String) ≠ ("a", "b:c") ∧
    (let e : Event := ⟨"x", .vobj [], 0⟩
     let s : BrokerState := ⟨[("a:b", [e]), ("a", [e])], [], [], []⟩
     let s2 := (blockingGetCheck s "a:b" "c").2
     e ∈ (blockingGetCheck s "a:b" "c").1 ∧
     e ∈ eventsOf s2 "a" ∧
     (blockingGetCheck s2 "a" "b:c").1 = []) := by
  refine ⟨rfl, by decide, by decide, by decide, by decide⟩

/-- Every event surviving a prune pass at time `now` is younger than
`EVENT_EXPIRY_MS`. -/
theorem mem_prune_fresh (now : Nat) (m : List (String × List Event))
    (k : String) (e : Event)
    (h : e ∈ (mapGet (pruneExpired now m) k).getD []) :
    now - e.timestamp < EVENT_EXPIRY_MS := by
  induction m with
  | nil => simp [pruneExpired, mapGet] at h
  | cons p rest ih =>
    obtain ⟨k', evts⟩ := p
    simp only [pruneExpired] at h
    split at h
    · by_cases hk : k' = k
      · subst hk
        simp only [mapGet, if_pos rfl, Option.getD_some] at h
        have := (List.mem_filter.mp h).2
        simpa using this
      · simp only [mapGet, hk, if_false] at h
        exact ih h
    · exact ih h

/-- C2 counterexample: `getUnconsumed` never consults the clock, so with
no sweep pass between a push at time `T = 0` and a group's first check,
the check returns the pushed event whatever the wall-clock time of the
check — in particular at `T + RETENTION_WINDOW_MS` and later.  This
refutes "the event is absent … regardless of whether a sweep pass has run
between expiry and the check". -/
theorem expiry_without_sweep_counterexample :
    (blockingGetCheck (run [Op.push "k" JsValue.vnull 0 "r"]) "k" "g").1 =
      [⟨"k-0-r", JsValue.vobj [], 0⟩] := by
  decide

/-- C2 amended: an event pushed at time `T` is absent from every
`blockingGet` check that happens after a sweep pass run at a time `now`
with `now - T ≥ RETENTION_WINDOW_MS`; without such a sweep the event can
still be returned after expiry. -/
theorem expired_absent_after_sweep (s : BrokerState) (now : Nat)
    (key groupId : String) (e : Event)
    (h : EVENT_EXPIRY_MS ≤ now - e.timestamp) :
    e ∉ (blockingGetCheck (applyOp s (Op.sweep now)) key groupId).1 := by
  intro hmem
  by_cases hv : key = "" ∨ groupId = ""
  · simp [blockingGetCheck, hv] at hmem
  · by_cases hl :
      (getUnconsumed (applyOp s (Op.sweep now)) key groupId).length > 0
    · simp only [blockingGetCheck, hv, if_false, hl, if_true] at hmem
      have h1 : e ∈ eventsOf (applyOp s (Op.sweep now)) key :=
        (List.mem_filter.mp hmem).1
      have h2 : now - e.timestamp < EVENT_EXPIRY_MS :=
        mem_prune_fresh now s.events key e h1
      omega
    · simp [blockingGetCheck, hv, hl] at hmem

/-- Witness for C2's amended claim: a sweep at time 300000 hides the
event pushed at time 0 from a subsequent check. -/
theorem expired_absent_after_sweep_witness :
    EVENT_EXPIRY_MS ≤ 300000 - (0 : Nat) ∧
    (⟨"k-0-r", JsValue.vobj [], 0⟩ : Event) ∉
      (blockingGetCheck (applyOp (run [Op.push "k" JsValue.vnull 0 "r"])
        (Op.sweep 300000)) "k" "g").1 :=
  ⟨by decide,
   expired_absent_after_sweep (run [Op.push "k" JsValue.vnull 0 "r"]) 300000
     "k" "g" ⟨"k-0-r", JsValue.vobj [], 0⟩ (by decide)⟩

/-- C3 counterexample: the timeout path resolves a waiter but does not
remove it from the registry.  After `register "k" 0` and the firing of
that waiter's 30 s timeout, the waiter is resolved (its `resolve` was
invoked) yet still registered under `"k"` — a dangling registration,
contradicting "after its resolution no entry for it remains in the
registry … on both the notify path and the timeout path". -/
theorem waiter_dangling_after_timeout :
    0 ∈ (applyOp (applyOp initState (Op.register "k" 0))
        (Op.timeout 0)).resolveLog ∧
    0 ∈ waitersOf (applyOp (applyOp initState (Op.register "k" 0))
        (Op.timeout 0)) "k" := by
  decide

/-- C3 amended: a waiter's registry entry is removed only by a `push` for
its key (which removes every waiter for that key); the timeout path
resolves the waiter but leaves the registry untouched, so a timed-out
waiter dangles until the next push for its key deletes it. -/
theorem waiter_removed_only_by_push (s : BrokerState) (w : Nat)
    (key : String) (data : JsValue) (t : Nat) (rand : String)
    (hk : key ≠ "") :
    (applyOp s (Op.timeout w)).waiters = s.waiters ∧
    mapGet (applyOp s (Op.push key data t rand)).waiters key = none := by
  refine ⟨rfl, ?_⟩
  simp only [applyOp, push, if_neg hk]
  cases hw : mapGet s.waiters key with
  | some ws => simp [hw, mapGet_mapDelete_self]
  | none => simp [hw]

/-- Witness for C3's amended claim on a concrete registered waiter. -/
theorem waiter_removed_only_by_push_witness :
    ((applyOp (run [Op.register "k" 0]) (Op.timeout 0)).waiters =
      (run [Op.register "k" 0]).waiters) ∧
    mapGet (applyOp (run [Op.register "k" 0])
        (Op.push "k" JsValue.vnull 1 "r")).waiters "k" = none :=
  waiter_removed_only_by_push (run [Op.register "k" 0]) 0 "k"
    JsValue.vnull 1 "r" (by decide)

/-- C5: a successful `push(key, data)` invokes the `resolve` of every
waiter registered for `key` at the moment of the call exactly once (the
resolve log is extended by precisely that list, so each registered waiter
gains exactly one resolve call) and deletes the key's waiter entry, so no
waiter for `key` remains registered afterwards. -/
theorem push_notifies_and_clears_waiters (s : BrokerState) (key : String)
    (data : JsValue) (t : Nat) (rand : String) (hk : key ≠ "") :
    ∃ s', push s key data t rand = Except.ok s' ∧
      mapGet s'.waiters key = none ∧
      s'.resolveLog = s.resolveLog ++ waitersOf s key ∧
      ∀ w : Nat, s'.resolveLog.count w =
        s.resolveLog.count w + (waitersOf s key).count w := by
  cases hw : mapGet s.waiters key with
  | some ws =>
    have hpush : push s key data t rand = Except.ok
        { s with
            events := mapSet s.events key (eventsOf s key ++
              [⟨eventId key t rand,
                if jsFalsy data then .vobj [] else data, t⟩])
            waiters := mapDelete s.waiters key
            resolveLog := s.resolveLog ++ ws } := by
      simp only [push, if_neg hk, hw]
    refine ⟨_, hpush, mapGet_mapDelete_self _ _, ?_, ?_⟩
    · simp [waitersOf, hw]
    · intro w
      simp [waitersOf, hw, List.count_append]
  | none =>
    have hpush : push s key data t rand = Except.ok
        { s with
            events := mapSet s.events key (eventsOf s key ++
              [⟨eventId key t rand,
                if jsFalsy data then .vobj [] else data, t⟩]) } := by
      simp only [push, if_neg hk, hw]
    refine ⟨_, hpush, hw, ?_, ?_⟩
    · simp [waitersOf, hw]
    · intro w
      simp [waitersOf, hw]

/-- Witness for C5: a push with two registered waiters resolves both and
empties the registry for the key. -/
theorem push_notifies_and_clears_waiters_witness :
    ∃ s', push (run [Op.register "k" 0, Op.register "k" 1]) "k"
        JsValue.vnull 2 "r" = Except.ok s' ∧
      mapGet s'.waiters "k" = none ∧
      s'.resolveLog = (run [Op.register "k" 0, Op.register "k" 1]).resolveLog
        ++ waitersOf (run [Op.register "k" 0, Op.register "k" 1]) "k" ∧
      ∀ w : Nat, s'.resolveLog.count w =
        (run [Op.register "k" 0, Op.register "k" 1]).resolveLog.count w +
        (waitersOf (run [Op.register "k" 0, Op.register "k" 1]) "k").count w :=
  push_notifies_and_clears_waiters
    (run [Op.register "k" 0, Op.register "k" 1]) "k" JsValue.vnull 2 "r"
    (by decide)

/-- For a fixed key, the groupKey concatenation is injective in the
groupId. -/
theorem groupKeyOf_inj_right (key g1 g2 : String) (h : g1 ≠ g2) :
    groupKeyOf key g1 ≠ groupKeyOf key g2 := by
  intro heq
  apply h
  have hd : (key ++ ":").data ++ g1.data = (key ++ ":").data ++ g2.data :=
    congrArg String.data heq
  have hbc : g1.data = g2.data := List.append_cancel_left hd
  cases g1; cases g2
  exact congrArg String.mk (by simpa using hbc)

/-- C6: an event stored under `key` and consumed by neither of two
distinct groups is returned exactly once to each: group `g1`'s check
returns it (marking it consumed for `g1` only), and group `g2`'s
subsequent check still returns it, because the two groups' consumption
records live under distinct groupKeys. -/
theorem broadcast_to_distinct_groups (s : BrokerState) (key g1 g2 : String)
    (e : Event) (hg : g1 ≠ g2) (hk : key ≠ "") (h1 : g1 ≠ "") (h2 : g2 ≠ "")
    (hcount : (eventsOf s key).count e = 1)
    (hc1 : e.id ∉ consumedOf s (groupKeyOf key g1))
    (hc2 : e.id ∉ consumedOf s (groupKeyOf key g2)) :
    (blockingGetCheck s key g1).1.count e = 1 ∧
    (blockingGetCheck ((blockingGetCheck s key g1).2) key g2).1.count e
      = 1 := by
  have hv1 : ¬(key = "" ∨ g1 = "") := by simp [hk, h1]
  have hv2 : ¬(key = "" ∨ g2 = "") := by simp [hk, h2]
  have hp1 : (fun x : Event =>
      !decide (x.id ∈ consumedOf s (groupKeyOf key g1))) e = true := by
    simp [hc1]
  have hu1 : (getUnconsumed s key g1).count e = 1 := by
    simpa [getUnconsumed] using
      (List.count_filter (l := eventsOf s key) hp1).trans hcount
  have hl1 : (getUnconsumed s key g1).length > 0 :=
    List.length_pos_of_mem
      (List.count_pos_iff.mp (by rw [hu1]; exact Nat.one_pos))
  have hfst : blockingGetCheck s key g1 =
      (getUnconsumed s key g1,
        markConsumed s (groupKeyOf key g1) (getUnconsumed s key g1)) := by
    simp [blockingGetCheck, hv1, hl1]
  refine ⟨by rw [hfst]; exact hu1, ?_⟩
  rw [hfst]
  set s2 := markConsumed s (groupKeyOf key g1) (getUnconsumed s key g1)
    with hs2
  have hev2 : eventsOf s2 key = eventsOf s key := rfl
  have hcons2 : consumedOf s2 (groupKeyOf key g2) =
      consumedOf s (groupKeyOf key g2) :=
    consumedOf_markConsumed_ne s _ _ _
      (Ne.symm (groupKeyOf_inj_right key g1 g2 hg))
  have hp2 : (fun x : Event =>
      !decide (x.id ∈ consumedOf s2 (groupKeyOf key g2))) e = true := by
    simp [hcons2, hc2]
  have hu2 : (getUnconsumed s2 key g2).count e = 1 := by
    simpa [getUnconsumed, hev2] using
      (List.count_filter (l := eventsOf s key) hp2).trans hcount
  have hl2 : (getUnconsumed s2 key g2).length > 0 :=
    List.length_pos_of_mem
      (List.count_pos_iff.mp (by rw [hu2]; exact Nat.one_pos))
  simp only [blockingGetCheck, hv2, if_neg hv2, hl2, if_true]
  exact hu2

/-- Witness for C6: one stored event, two groups, both receive it once. -/
theorem broadcast_to_distinct_groups_witness :
    ((blockingGetCheck (run [Op.push "k" JsValue.vnull 0 "r"]) "k" "a").1.count
        ⟨"k-0-r", JsValue.vobj [], 0⟩ = 1) ∧
    ((blockingGetCheck
        ((blockingGetCheck (run [Op.push "k" JsValue.vnull 0 "r"]) "k" "a").2)
        "k" "b").1.count ⟨"k-0-r", JsValue.vobj [], 0⟩ = 1) :=
  broadcast_to_distinct_groups (run [Op.push "k" JsValue.vnull 0 "r"])
    "k" "a" "b" ⟨"k-0-r", JsValue.vobj [], 0⟩ (by decide) (by decide)
    (by decide) (by decide) (by decide) (by decide) (by decide)

/-- A key absent from the map stays absent after a prune pass. -/
theorem mapGet_prune_none (now : Nat) (m : List (String × List Event))
    (k : String) (h : mapGet m k = none) :
    mapGet (pruneExpired now m) k = none := by
  induction m with
  | nil => simp [pruneExpired, mapGet]
  | cons p rest ih =>
    obtain ⟨k', evts⟩ := p
    simp only [mapGet] at h
    by_cases hk : k' = k
    · simp [hk] at h
    · simp only [hk, if_false] at h
      simp only [pruneExpired]
      split
      · simp only [mapGet, hk, if_false]
        exact ih h
      · exact ih h

/-- A key not among a map's keys is absent from it. -/
theorem mapGet_eq_none_of_not_mem {α : Type} (m : List (String × α))
    (k : String) (h : k ∉ m.map Prod.fst) : mapGet m k = none := by
  induction m with
  | nil => rfl
  | cons p rest ih =>
    obtain ⟨k', v⟩ := p
    simp only [List.map_cons, List.mem_cons] at h
    push_neg at h
    simp [mapGet, Ne.symm h.1, ih h.2]

/-- C8: a sweep at time `now` maps every key of the event store to
exactly the events with `now - createdAt < EVENT_EXPIRY_MS`, kept in
their original order (a `filter`), and deletes the key's entry entirely
when no event survives. -/
theorem prune_per_key (m : List (String × List Event)) (now : Nat)
    (key : String) (hnd : (m.map Prod.fst).Nodup) :
    mapGet (pruneExpired now m) key =
      (if (((mapGet m key).getD []).filter
            (fun e => decide (now - e.timestamp < EVENT_EXPIRY_MS))).length > 0
       then some (((mapGet m key).getD []).filter
            (fun e => decide (now - e.timestamp < EVENT_EXPIRY_MS)))
       else none) := by
  induction m with
  | nil => simp [pruneExpired, mapGet]
  | cons p rest ih =>
    obtain ⟨k', evts⟩ := p
    simp only [List.map_cons, List.nodup_cons] at hnd
    obtain ⟨hnotin, hndrest⟩ := hnd
    by_cases hk : k' = key
    · subst hk
      simp only [pruneExpired, mapGet, if_pos rfl, Option.getD_some]
      split
      · rename_i hval
        simp only [mapGet, if_pos rfl]
        simp [hval]
      · rename_i hval
        rw [mapGet_prune_none now rest k'
          (mapGet_eq_none_of_not_mem rest k' hnotin)]
        simp only [Nat.not_lt] at hval
        simp [Nat.le_zero.mp hval]
    · simp only [pruneExpired, mapGet, hk, if_false]
      split
      · simp only [mapGet, hk, if_false]
        exact ih hndrest
      · exact ih hndrest

/-- A concrete event store: key `"a"` has one fresh and one expired event
at `now = 130000`, key `"b"` only an expired one. -/
def sampleStore : List (String × List Event) :=
  [("a", [⟨"x", JsValue.vobj [], 0⟩, ⟨"y", JsValue.vobj [], 20000⟩]),
   ("b", [⟨"z", JsValue.vobj [], 0⟩])]

/-- Witness for C8 on a store with a surviving and a fully-expired key. -/
theorem prune_per_key_witness :
    mapGet (pruneExpired 130000 sampleStore) "b" =
      (if (((mapGet sampleStore "b").getD []).filter
            (fun e => decide (130000 - e.timestamp < EVENT_EXPIRY_MS))).length > 0
       then some (((mapGet sampleStore "b").getD []).filter
            (fun e => decide (130000 - e.timestamp < EVENT_EXPIRY_MS)))
       else none) :=
  prune_per_key sampleStore 130000 "b" (by decide)

/-- C10: for every falsy `data` argument (`null`, `undefined`, `0`, `""`,
`false`), `push` stores the empty object `{}` as the event's payload
(`data || {}`), and that `{}` payload is what `blockingGet` returns for
the event. -/
theorem falsy_data_stored_as_empty_object (data : JsValue)
    (key groupId : String) (t : Nat) (rand : String)
    (hd : jsFalsy data = true) (hk : key ≠ "") (hg : groupId ≠ "") :
    ∃ s', push initState key data t rand = Except.ok s' ∧
      eventsOf s' key = [⟨eventId key t rand, JsValue.vobj [], t⟩] ∧
      blockingGetPhase1 s' key groupId 0 =
        .ret [⟨eventId key t rand, JsValue.vobj [], t⟩]
          (markConsumed s' (groupKeyOf key groupId)
            [⟨eventId key t rand, JsValue.vobj [], t⟩]) := by
  have hpush : push initState key data t rand = Except.ok
      ⟨[(key, [⟨eventId key t rand, JsValue.vobj [], t⟩])], [], [], []⟩ := by
    simp [push, if_neg hk, hd, initState, eventsOf, mapGet, mapSet]
  refine ⟨_, hpush, ?_, ?_⟩
  · simp [eventsOf, mapGet]
  · have hv : ¬(key = "" ∨ groupId = "") := by simp [hk, hg]
    simp [blockingGetPhase1, hv, getUnconsumed, eventsOf, consumedOf, mapGet]

/-- Witness for C10 at `data = null`. -/
theorem falsy_data_stored_as_empty_object_witness :
    ∃ s', push initState "k" JsValue.vnull 0 "r" = Except.ok s' ∧
      eventsOf s' "k" = [⟨eventId "k" 0 "r", JsValue.vobj [], 0⟩] ∧
      blockingGetPhase1 s' "k" "g" 0 =
        .ret [⟨eventId "k" 0 "r", JsValue.vobj [], 0⟩]
          (markConsumed s' (groupKeyOf "k" "g")
            [⟨eventId "k" 0 "r", JsValue.vobj [], 0⟩]) :=
  falsy_data_stored_as_empty_object JsValue.vnull "k" "g" 0 "r"
    (by decide) (by decide) (by decide)

end EventSyncer
